import Mathlib

/-!
Verification of the PyLyrics terminal lyrics renderer.

This file shallowly embeds the parts of `src/pylyrics/lyrics.py`,
`src/pylyrics/display.py` and `src/pylyrics/media.py` that the specification
talks about, and proves (or refutes) the specification's claims about them.

Conventions of the embedding:
  * Python `float` time values are modelled as exact rationals (`ℚ`); all
    time arithmetic performed by the program (`minutes*60 + seconds + frac`,
    `position_us / 1_000_000`) is exact in this model.
  * Python lists become `List`, `None` becomes `Option`.
  * Python's floor division `//` on possibly-negative integers is `Int.fdiv`.
  * Stateful code (the render loop, the differential writer writing to a
    stream) is embedded by making the emitted output an explicit value.
-/

set_option maxHeartbeats 1000000
set_option maxRecDepth 4000

namespace PyLyrics

/-- `LyricLine` from `lyrics.py`: a single timed lyric line. -/
structure LyricLine where
  time_s : ℚ
  text : String
deriving DecidableEq, Repr

/-- Default element used for (always in-bounds) list indexing. -/
def dfltLine : LyricLine := ⟨0, ""⟩

/-- `NowPlaying` from `media.py` (the fields the display code reads).
`position_s` / `duration_s` are the `_us / 1_000_000` properties, modelled
exactly as rationals. -/
structure NowPlaying where
  title : String
  artist : String
  album : String
  duration_us : Int
  position_us : Int
  is_playing : Bool
deriving DecidableEq, Repr

def NowPlaying.position_s (n : NowPlaying) : ℚ := (n.position_us : ℚ) / 1000000

def NowPlaying.duration_s (n : NowPlaying) : ℚ := (n.duration_us : ℚ) / 1000000

/-! ## `_find_active_line` (display.py lines 134-143)

```python
def _find_active_line(lines, position_s):
    lo, hi, result = 0, len(lines) - 1, 0
    while lo <= hi:
        mid = (lo + hi) // 2
        if lines[mid].time_s <= position_s:
            result = mid
            lo = mid + 1
        else:
            hi = mid - 1
    return result
```
-/

/-- The `while` loop of `_find_active_line`, with the loop variables as
arguments.  `lo`/`hi` are `Int` (as `hi` starts at `len - 1`, which is `-1`
for the empty list); `//` is Python floor division, i.e. `Int.fdiv`.  The
loop is given a structural fuel argument so that it evaluates by kernel
reduction; `findLoop_fuel_free` below proves the fuel never runs out for
the budget `_find_active_line` supplies, so the embedding computes exactly
what the unbounded loop does. -/
def findLoop (lines : List LyricLine) (position_s : ℚ) :
    Nat → Int → Int → Nat → Nat
  | 0, _, _, result => result
  | fuel + 1, lo, hi, result =>
    if lo ≤ hi then
      let mid := (lo + hi).fdiv 2
      if (lines.getD mid.toNat dfltLine).time_s ≤ position_s then
        findLoop lines position_s fuel (mid + 1) hi mid.toNat
      else
        findLoop lines position_s fuel lo (mid - 1) result
    else result

/-- `_find_active_line` from `display.py`.  The loop halves `hi - lo` each
iteration, so `length + 1` rounds always suffice. -/
def _find_active_line (lines : List LyricLine) (position_s : ℚ) : Nat :=
  findLoop lines position_s (lines.length + 1) 0 ((lines.length : Int) - 1) 0

/-- Rendering of the specification's words for the locator: "return the
largest index `i` such that `timestamps[i] ≤ p`, or `0` if no such index
exists".  Scanning all indices in increasing order and keeping the last one
whose timestamp is `≤ p` yields exactly the largest qualifying index
(`0` when none qualifies, in particular on the empty list). -/
def specActiveIdx (lines : List LyricLine) (p : ℚ) : Nat :=
  (List.range lines.length).foldl
    (fun acc i => if (lines.getD i dfltLine).time_s ≤ p then i else acc) 0

/-- Generalisation of `specActiveIdx` used for induction: scan the first `n`
indices starting from accumulator `a`. -/
def specFold (lines : List LyricLine) (p : ℚ) (n a : Nat) : Nat :=
  (List.range n).foldl
    (fun acc i => if (lines.getD i dfltLine).time_s ≤ p then i else acc) a

/-! ## `parse_lrc` (lyrics.py lines 27-51)

The regex `\[(\d{1,2}):(\d{2})(?:[.:](\d{1,3}))?\]\s*(.*)` is embedded as a
recursive matcher with the same greedy-with-backtracking semantics:
minutes prefer two digits, the fractional field prefers three, backtracking
one digit at a time until the following literal (`:` resp. `]`) matches. -/

/-- `int` of a digit string (most significant first). -/
def digitsToNat (ds : List Char) : Nat :=
  ds.foldl (fun a c => a * 10 + (c.toNat - '0'.toNat)) 0

/-- `frac_str.ljust(3, "0")[:3]`: right-pad with zeros to 3 and truncate. -/
def fracPad (fs : List Char) : List Char :=
  (fs ++ List.replicate (3 - fs.length) '0').take 3

/-- The fractional contribution: `int(frac_str.ljust(3,"0")[:3]) / 1000`,
with `"0"` substituted for a missing group (`m.group(3) or "0"`). -/
def fracOfGroup (g : Option (List Char)) : ℚ :=
  (digitsToNat (fracPad (g.getD ['0'])) : ℚ) / 1000

/-- `time_s = minutes * 60 + seconds + frac`. -/
def timeOf (minutes seconds : Nat) (g : Option (List Char)) : ℚ :=
  (minutes : ℚ) * 60 + (seconds : ℚ) + fracOfGroup g

/-- One-digit fractional field followed by `]`. -/
def fracTry1 : List Char → Option (List Char × List Char)
  | a :: ']' :: t => if a.isDigit then some ([a], t) else none
  | _ => none

/-- Two-digit fractional field followed by `]`, else backtrack to one. -/
def fracTry2 (tail : List Char) : Option (List Char × List Char) :=
  match tail with
  | a :: b :: ']' :: t =>
      if a.isDigit && b.isDigit then some ([a, b], t) else fracTry1 tail
  | _ => fracTry1 tail

/-- Greedy `(\d{1,3})\]`: three digits, backtracking to two, then one. -/
def fracTry3 (tail : List Char) : Option (List Char × List Char) :=
  match tail with
  | a :: b :: c :: ']' :: t =>
      if a.isDigit && b.isDigit && c.isDigit then some ([a, b, c], t)
      else fracTry2 tail
  | _ => fracTry2 tail

/-- After the two seconds digits: the optional `(?:[.:](\d{1,3}))?` group
(tried first, as the regex engine does) and the closing `]`.  Returns the
optional fractional digit group and the remainder after `]`. -/
def afterSeconds (rest : List Char) : Option (Option (List Char) × List Char) :=
  match rest with
  | ']' :: t => some (none, t)
  | c :: t =>
      if c = '.' ∨ c = ':' then
        match fracTry3 t with
        | some (ds, t') => some (some ds, t')
        | none => none
      else none
  | [] => none

/-- After the minutes digits: `:`, exactly two seconds digits, then the
optional fraction and `]`. -/
def afterMinutes (minutes : Nat) (rest : List Char) :
    Option (Nat × Nat × Option (List Char) × List Char) :=
  match rest with
  | ':' :: d1 :: d2 :: t =>
      if d1.isDigit && d2.isDigit then
        match afterSeconds t with
        | some (g, t') => some (minutes, digitsToNat [d1, d2], g, t')
        | none => none
      else none
  | _ => none

/-- `re.match` of the full timestamp pattern against a (stripped) line:
`[`, greedy 1-2 minute digits, `:`, 2 second digits, optional fraction,
`]`; returns `(minutes, seconds, fraction group, rest of line)`. -/
def matchTs (cs : List Char) : Option (Nat × Nat × Option (List Char) × List Char) :=
  match cs with
  | '[' :: d1 :: rest =>
      if d1.isDigit then
        match rest with
        | d2 :: rest2 =>
            if d2.isDigit then
              match afterMinutes (digitsToNat [d1, d2]) rest2 with
              | some r => some r
              | none => afterMinutes (digitsToNat [d1]) rest
            else afterMinutes (digitsToNat [d1]) rest
        | [] => none
      else none
  | _ => none

/-- The per-line body of `parse_lrc`'s loop: strip the raw line, match it,
and build the `LyricLine` (`\s*` before the text group plus `.strip()` on
the group amount to trimming the remainder). -/
def lineToLyric (raw : String) : Option LyricLine :=
  match matchTs raw.trim.toList with
  | some (m, s, g, rest) => some ⟨timeOf m s g, (String.mk rest).trim⟩
  | none => none

/-- `str.splitlines` restricted to the `\n` / `\r\n` / `\r` terminators:
a terminator ends the current line; a trailing fragment without a
terminator is still a line; empty input gives no lines. -/
def splitLinesAux : List Char → List Char → List (List Char)
  | [], acc => if acc.isEmpty then [] else [acc.reverse]
  | '\r' :: '\n' :: rest, acc => acc.reverse :: splitLinesAux rest []
  | '\n' :: rest, acc => acc.reverse :: splitLinesAux rest []
  | '\r' :: rest, acc => acc.reverse :: splitLinesAux rest []
  | c :: rest, acc => splitLinesAux rest (c :: acc)

def splitlines (s : String) : List String :=
  (splitLinesAux s.toList []).map String.mk

/-- The list built by `parse_lrc`'s loop, before the final sort. -/
def collectedLines (t : String) : List LyricLine :=
  (splitlines t).filterMap lineToLyric

/-- `parse_lrc`: collect the matching lines, then `lines.sort(key=time_s)`
(a stable sort, modelled by `List.mergeSort`). -/
def parse_lrc (t : String) : List LyricLine :=
  (collectedLines t).mergeSort (fun a b => decide (a.time_s ≤ b.time_s))

/-! ## ANSI constants and style helpers (display.py lines 25-91) -/

def _ESC : String := "\x1b["
def _RESET : String := _ESC ++ "0m"
def _BOLD : String := _ESC ++ "1m"
def _DIM : String := _ESC ++ "2m"
def _HIDE_CURSOR : String := _ESC ++ "?25l"
def _SHOW_CURSOR : String := _ESC ++ "?25h"
def _CLEAR : String := _ESC ++ "2J" ++ _ESC ++ "H"
def _EL : String := _ESC ++ "K"
def _SYNC_START : String := "\x1b[?2026h"
def _SYNC_END : String := "\x1b[?2026l"
def _FG_YELLOW : String := _ESC ++ "33m"
def _FG_BLUE : String := _ESC ++ "34m"
def _FG_MAGENTA : String := _ESC ++ "35m"
def _FG_CYAN : String := _ESC ++ "36m"
def _FG_WHITE : String := _ESC ++ "37m"
def _FG_BR_BLACK : String := _ESC ++ "90m"
def _FG_BR_WHITE : String := _ESC ++ "97m"
def _BG_BLUE : String := _ESC ++ "44m"

/-- `_move(row, col)`: cursor positioning escape. -/
def _move (row col : Nat) : String :=
  _ESC ++ toString row ++ ";" ++ toString col ++ "H"

def spaces (n : Nat) : String := String.mk (List.replicate n ' ')

/-- CPython `str.center`: no-op when the text is at least as wide as the
target (never truncates); otherwise pads both sides, the left padding being
`marg // 2 + (marg & width & 1)`. -/
def pyCenter (s : String) (w : Nat) : String :=
  if w ≤ s.length then s
  else
    let marg := w - s.length
    let left := marg / 2 + (marg &&& w &&& 1)
    spaces left ++ s ++ spaces (marg - left)

/-- `_active`: the highlighted active-line style. -/
def _active (text : String) (w : Nat) : String :=
  _BOLD ++ _BG_BLUE ++ _FG_BR_WHITE ++ pyCenter text w ++ _RESET ++ _EL

/-- `_GRAD`: the ordered style palette for non-active lines. -/
def _GRAD : List (String → String) :=
  [fun t => _BOLD ++ _FG_WHITE ++ t ++ _RESET ++ _EL,
   fun t => _FG_WHITE ++ t ++ _RESET ++ _EL,
   fun t => _FG_CYAN ++ t ++ _RESET ++ _EL,
   fun t => _FG_BLUE ++ t ++ _RESET ++ _EL,
   fun t => _FG_BR_BLACK ++ t ++ _RESET ++ _EL,
   fun t => _DIM ++ _FG_BR_BLACK ++ t ++ _RESET ++ _EL]

/-- `_styled_line(text, dist)` for the integral distances the callers pass:
`d = max(0, round(dist) - 1)` clamped to the last palette tier. -/
def _styled_line (text : String) (dist : Nat) : String :=
  (_GRAD.getD (min (dist - 1) (_GRAD.length - 1)) id) text

/-- Python `int()` truncation (toward zero) of a rational. -/
def pyInt (q : ℚ) : Int := q.num / (q.den : Int)

/-- Zero-padding of `f"{s:02d}"`. -/
def pad2 (t : String) : String :=
  String.mk (List.replicate (2 - t.length) '0') ++ t

/-- `_format_time`: `divmod(int(seconds), 60)` rendered as `M:SS`
(`divmod` floors, hence `fdiv`/`fmod`). -/
def _format_time (seconds : ℚ) : String :=
  let n := pyInt seconds
  toString (n.fdiv 60) ++ ":" ++ pad2 (toString (n.fmod 60))

/-- `_center(text, width)`: truncate to `width` when at least as long,
otherwise left-pad by `(width - len) // 2`. -/
def _center (text : String) (width : Nat) : String :=
  if width ≤ text.length then String.mk (text.toList.take width)
  else spaces ((width - text.length) / 2) ++ text

/-! ## Frame builders (display.py lines 154-229) -/

/-- `dur_str`: formatted duration, or `?:??` when the duration is not
positive. -/
def durStr (now : NowPlaying) : String :=
  if 0 < now.duration_s then _format_time now.duration_s else "?:??"

/-- The plain header text of the lyric frame. -/
def headerPlainStr (now : NowPlaying) : String :=
  now.title ++ " — " ++ now.artist ++ "  " ++ _format_time now.position_s
    ++ " / " ++ durStr now

/-- The styled header row of the lyric frame (left padding of
`max(0, (w - len(header_plain)) // 2)` columns, then the styled pieces and
the erase marker). -/
def frameHeaderRow (now : NowPlaying) (w : Nat) : String :=
  spaces ((max 0 (((w : Int) - (headerPlainStr now).length).fdiv 2)).toNat)
    ++ _BOLD ++ _FG_MAGENTA ++ now.title ++ _RESET
    ++ _FG_BR_BLACK ++ " — " ++ _RESET
    ++ _FG_CYAN ++ now.artist ++ _RESET
    ++ _FG_YELLOW ++ "  " ++ _format_time now.position_s ++ " / " ++ durStr now
    ++ _RESET ++ _EL

/-- The body of `_build_frame`'s lyric-row loop: `lyric_idx = start_idx +
row` with `start_idx = active_idx - half`; positions outside the line
sequence give a bare erase row; the active position gives the highlighted
style; others the distance-styled centered text. -/
def frameLyricRow (lines : List LyricLine) (active_idx : Nat) (w half row : Nat) :
    String :=
  let lyric_idx : Int := (active_idx : Int) - (half : Int) + (row : Int)
  if lyric_idx < 0 ∨ (lines.length : Int) ≤ lyric_idx then _EL
  else
    let lyric := (lines.getD lyric_idx.toNat dfltLine).text
    let dist := (lyric_idx - (active_idx : Int)).natAbs
    if dist = 0 then _active lyric w
    else _styled_line (_center lyric w) dist

/-- `_build_frame(lines, active_idx, now, w, h)`. -/
def _build_frame (lines : List LyricLine) (active_idx : Nat) (now : NowPlaying)
    (w h : Nat) : List String :=
  let available := h - 3
  let half := available / 2
  let rows := frameHeaderRow now w :: _EL ::
    (List.range available).map (frameLyricRow lines active_idx w half)
  rows ++ List.replicate (h - rows.length) _EL

/-- `_build_status(message, now, w, h)`. -/
def _build_status (message : String) (now : Option NowPlaying) (w h : Nat) :
    List String :=
  let header := match now with
    | some n => n.title ++ " — " ++ n.artist ++ "  " ++ _format_time n.position_s
        ++ " / " ++ durStr n
    | none => "pylyrics"
  let available := h - 3
  let mid := available / 2
  let rows := (_FG_BR_BLACK ++ _center header w ++ _RESET ++ _EL) :: _EL ::
    (List.range available).map (fun i =>
      if i = mid then _FG_BR_BLACK ++ _center message w ++ _RESET ++ _EL
      else _EL)
  rows ++ List.replicate (h - rows.length) _EL

/-! ## `_write_diff` (display.py lines 234-249)

The bytes written to `out` become the result: `none` models "nothing
written, no flush"; `some s` models "s written and flushed". -/

/-- The per-row emission condition of `_write_diff`. -/
def diffRowChanged (prev : List String) (force : Bool) (ri : Nat) (line : String) : Bool :=
  force || decide (prev.length ≤ ri) || decide (prev.getD ri "" ≠ line)

/-- The loop body of `_write_diff`: append the cursor move and the row to
the buffer and set `changed` when the row is emitted. -/
def diffStep (prev : List String) (force : Bool) (acc : String × Bool)
    (pr : Nat × String) : String × Bool :=
  if diffRowChanged prev force pr.1 pr.2 then
    (acc.1 ++ _move (pr.1 + 1) 1 ++ pr.2, true)
  else acc

def _write_diff (prev cur : List String) (force : Bool) : Option String :=
  let res := cur.enum.foldl (diffStep prev force) (_SYNC_START, false)
  if res.2 then some (res.1 ++ _SYNC_END) else none

/-- The rows `_write_diff` emits, with their indices (spec side of C2). -/
def diffEmitted (prev cur : List String) (force : Bool) : List (Nat × String) :=
  cur.enum.filter (fun pr => diffRowChanged prev force pr.1 pr.2)

/-- The concatenation of the emissions: for each emitted row, a cursor
move to its (1-based) row followed by the row content. -/
def diffConcat (l : List (Nat × String)) : String :=
  (l.map (fun pr => _move (pr.1 + 1) 1 ++ pr.2)).foldr (· ++ ·) ""

/-! ## Pipe mode (display.py lines 96-124): one iteration of the body. -/

/-- One iteration of `display_pipe`'s loop: given the previously printed
index and this poll's `get_now_playing` result, return the new previous
index, the lines printed, and whether the function returned (song
changed). -/
def pipeStep (lines : List LyricLine) (initial_info : NowPlaying)
    (previous_idx : Int) (now : Option NowPlaying) : Int × List String × Bool :=
  match now with
  | none => (previous_idx, [], false)
  | some n =>
      if n.title ≠ initial_info.title ∨ n.artist ≠ initial_info.artist then
        (previous_idx, [], true)
      else if n.is_playing = false then (previous_idx, [], false)
      else
        let active := _find_active_line lines n.position_s
        if (active : Int) ≠ previous_idx then
          let text := (lines.getD active dfltLine).text
          ((active : Int), if text = "" then [] else [text], false)
        else (previous_idx, [], false)

/-! ## The render loop of `display_lyrics` (display.py lines 254-353) -/

/-- The mutable state of the render loop. -/
structure LoopState where
  current_lines : Option (List LyricLine)
  current_info : NowPlaying
  previous_idx : Int
  prev_frame : List String
  needs_redraw : Bool
deriving DecidableEq

/-- Result of one loop iteration: the successor state, the strings written
to the output stream, and whether `fetch_lyrics` was invoked. -/
structure TickResult where
  state : LoopState
  writes : List String
  fetched : Bool
deriving DecidableEq

/-- One iteration of the `while not interrupted` body, after the sleep and
the fresh `(w, h)` / `get_now_playing` samples.  `fetchResult` is the list
`fetch_lyrics` would return if invoked this tick (empty for `None`). -/
def loopTick (st : LoopState) (w h : Nat) (now : Option NowPlaying)
    (fetchResult : List LyricLine) : TickResult :=
  match now with
  | none =>
      let frame := _build_status "No media player detected." none w h
      let o := _write_diff st.prev_frame frame st.needs_redraw
      ⟨{ st with prev_frame := frame, needs_redraw := false }, o.toList, false⟩
  | some n =>
      if n.title ≠ st.current_info.title ∨ n.artist ≠ st.current_info.artist then
        let frame := _build_status "Fetching lyrics…" (some n) w h
        let o := _write_diff [] frame true
        ⟨{ current_lines := if fetchResult.isEmpty then none else some fetchResult,
           current_info := n,
           previous_idx := -1,
           prev_frame := frame,
           needs_redraw := true }, o.toList, true⟩
      else
        match st.current_lines with
        | none =>
            let frame := _build_status "No synced lyrics found." (some n) w h
            let o := _write_diff st.prev_frame frame st.needs_redraw
            ⟨{ st with prev_frame := frame, needs_redraw := false }, o.toList, false⟩
        | some ls =>
            let active := _find_active_line ls n.position_s
            if (active : Int) ≠ st.previous_idx ∨ st.needs_redraw then
              let frame := _build_frame ls active n w h
              let o := _write_diff st.prev_frame frame st.needs_redraw
              ⟨{ st with prev_frame := frame,
                         needs_redraw := false,
                         previous_idx := (active : Int) }, o.toList, false⟩
            else
              ⟨{ st with previous_idx := (active : Int) }, [], false⟩

/-! ## Terminal-session lifecycle (display.py lines 278-353)

The effects `display_lyrics` performs on the terminal are made explicit as
an action trace; a small interpreter applies them to a terminal state.
Frame output goes through `write`, which never carries cursor-visibility
or input-mode controls (the frames contain only SGR/EL/positioning
sequences), so it leaves both untouched. -/

inductive TermAction where
  | write (s : String)
  | hideCursor
  | showCursor
  | clearScreen
  | setMode (m : Nat)

/-- Terminal state observed by the claim: cursor visibility, the termios
input mode (abstracted as a `Nat`), and the screen contents since the last
clear. -/
structure TermState where
  cursorVisible : Bool
  inputMode : Nat
  screen : List String

def applyAction (t : TermState) : TermAction → TermState
  | .write s => { t with screen := t.screen ++ [s] }
  | .hideCursor => { t with cursorVisible := false }
  | .showCursor => { t with cursorVisible := true }
  | .clearScreen => { t with screen := [] }
  | .setMode m => { t with inputMode := m }

def applyActions (t : TermState) (as : List TermAction) : TermState :=
  as.foldl applyAction t

/-- The abstract cbreak mode `tty.setcbreak` switches to. -/
def cbreakMode : Nat := 1

/-- External inputs of one poll iteration: the signal flags delivered
during the sleep, the fresh terminal size and playback state, the lyrics
the fetch would return, and the two modelled failure points (the playback
query raising, the lyrics fetch raising). -/
structure TickInput where
  winch : Bool
  intr : Bool
  w : Nat
  h : Nat
  now : Option NowPlaying
  fetchResult : List LyricLine
  failGet : Bool
  failFetch : Bool

/-- The loop of `display_lyrics` run over a list of poll inputs: returns
the emitted actions and whether an exception escaped the body.  The loop
stops when an interrupt flag is observed (checked at the top, like
`while not interrupted`), when an exception is raised, or when the
modelled input list ends. -/
def runLoop (st : LoopState) : List TickInput → List TermAction × Bool
  | [] => ([], false)
  | tk :: rest =>
      if tk.intr then ([], false)
      else
        let st1 := { st with needs_redraw := st.needs_redraw || tk.winch }
        if tk.failGet then ([], true)
        else
          match tk.now with
          | some n =>
              if (n.title ≠ st1.current_info.title ∨
                  n.artist ≠ st1.current_info.artist) ∧ tk.failFetch then
                let frame := _build_status "Fetching lyrics…" (some n) tk.w tk.h
                ((( _write_diff [] frame true).toList).map TermAction.write, true)
              else
                let r := loopTick st1 tk.w tk.h tk.now tk.fetchResult
                let tl := runLoop r.state rest
                (r.writes.map TermAction.write ++ tl.1, tl.2)
          | none =>
              let r := loopTick st1 tk.w tk.h none tk.fetchResult
              let tl := runLoop r.state rest
              (r.writes.map TermAction.write ++ tl.1, tl.2)

/-- The full action trace of `display_lyrics`: the entry sequence (cbreak
if the termios query succeeded, hide cursor, clear), the loop body, and —
on every exit path, normal, interrupted or raising, by `try/finally` — the
exit sequence (show cursor, clear, restore the saved input mode if the
query succeeded). -/
def display_lyrics_trace (savedMode : Nat) (has_termios : Bool)
    (lines : Option (List LyricLine)) (initial_info : NowPlaying)
    (ticks : List TickInput) : List TermAction × Bool :=
  let entry := (if has_termios then [TermAction.setMode cbreakMode] else [])
    ++ [TermAction.hideCursor, TermAction.clearScreen]
  let body := runLoop ⟨lines, initial_info, -1, [], true⟩ ticks
  let exitA := [TermAction.showCursor, TermAction.clearScreen]
    ++ (if has_termios then [TermAction.setMode savedMode] else [])
  (entry ++ body.1 ++ exitA, body.2)

/-- Run `display_lyrics` against an initial terminal state (`has_termios`
is whether `tcgetattr` succeeded, in which case the saved mode is the
terminal's current input mode). -/
def display_lyrics_run (t0 : TermState) (has_termios : Bool)
    (lines : Option (List LyricLine)) (initial_info : NowPlaying)
    (ticks : List TickInput) : TermState × Bool :=
  let tr := display_lyrics_trace t0.inputMode has_termios lines initial_info ticks
  (applyActions t0 tr.1, tr.2)

/-! ## Visible width: a scanner that skips CSI escape sequences. -/

inductive ScanState where
  | norm
  | esc
  | csi
deriving DecidableEq

/-- Count visible characters, skipping `ESC [ params final-byte`
sequences (the only escapes the program emits). -/
def scanList : ScanState → Nat → List Char → ScanState × Nat
  | st, n, [] => (st, n)
  | .norm, n, c :: rest =>
      if c = '\x1b' then scanList .esc n rest else scanList .norm (n + 1) rest
  | .esc, n, c :: rest =>
      if c = '[' then scanList .csi n rest else scanList .norm n rest
  | .csi, n, c :: rest =>
      if ('0' ≤ c ∧ c ≤ '9') ∨ c = ';' ∨ c = '?' then scanList .csi n rest
      else scanList .norm n rest

/-- The visible width of a rendered row: characters outside CSI escapes. -/
def visibleLen (s : String) : Nat := (scanList .norm 0 s.toList).2

/-- A string free of the escape character (lyric text, titles). -/
@[reducible] def noEsc (s : String) : Prop := ∀ c ∈ s.toList, c ≠ '\x1b'

/-- `s` is scanned from the normal state back to the normal state, adding
exactly `k` visible columns, from any starting count: the shape of every
piece (style escape, plain text, erase marker) a frame row is built from. -/
def scansTo (s : String) (k : Nat) : Prop :=
  ∀ n : Nat, scanList ScanState.norm n s.toList = (ScanState.norm, n + k)

lemma specActiveIdx_eq_specFold (lines : List LyricLine) (p : ℚ) :
    specActiveIdx lines p = specFold lines p lines.length 0 := rfl

lemma specFold_succ (lines : List LyricLine) (p : ℚ) (n a : Nat) :
    specFold lines p (n + 1) a =
      if (lines.getD n dfltLine).time_s ≤ p then n else specFold lines p n a := by
  unfold specFold
  rw [List.range_succ, List.foldl_append]
  rfl

lemma specFold_of_none (lines : List LyricLine) (p : ℚ) {n : Nat} (a : Nat)
    (h : ∀ i, i < n → ¬ (lines.getD i dfltLine).time_s ≤ p) :
    specFold lines p n a = a := by
  induction n with
  | zero => rfl
  | succ m ih =>
      rw [specFold_succ, if_neg (h m (by omega))]
      exact ih (fun i hi => h i (by omega))

lemma specFold_of_last (lines : List LyricLine) (p : ℚ) {n k : Nat} (a : Nat)
    (hk : k < n) (hPk : (lines.getD k dfltLine).time_s ≤ p)
    (hafter : ∀ i, k < i → i < n → ¬ (lines.getD i dfltLine).time_s ≤ p) :
    specFold lines p n a = k := by
  induction n with
  | zero => omega
  | succ m ih =>
      rcases Nat.lt_succ_iff_lt_or_eq.mp hk with hkm | hkm
      · rw [specFold_succ, if_neg (hafter m (by omega) (by omega))]
        exact ih hkm (fun i h1 h2 => hafter i h1 (by omega))
      · subst hkm
        rw [specFold_succ, if_pos hPk]

lemma le_specFold (lines : List LyricLine) (p : ℚ) {n i : Nat} (a : Nat)
    (hi : i < n) (hP : (lines.getD i dfltLine).time_s ≤ p) :
    i ≤ specFold lines p n a := by
  induction n with
  | zero => omega
  | succ m ih =>
      rw [specFold_succ]
      by_cases hm : (lines.getD m dfltLine).time_s ≤ p
      · rw [if_pos hm]; omega
      · rw [if_neg hm]
        rcases Nat.lt_succ_iff_lt_or_eq.mp hi with him | him
        · exact ih him
        · exact absurd hP (him ▸ hm)

lemma specFold_lt (lines : List LyricLine) (p : ℚ) {n a m : Nat}
    (ha : a < m) (hn : n ≤ m) : specFold lines p n a < m := by
  induction n with
  | zero => exact ha
  | succ k ih =>
      rw [specFold_succ]
      by_cases hk : (lines.getD k dfltLine).time_s ≤ p
      · rw [if_pos hk]; omega
      · rw [if_neg hk]; exact ih (by omega)

/-- Sortedness transfers to `getD` accesses: earlier entries have earlier
(or equal) timestamps. -/
lemma sorted_time_mono {lines : List LyricLine}
    (hs : List.Sorted (fun a b : LyricLine => a.time_s ≤ b.time_s) lines)
    {i j : Nat} (hij : i ≤ j) (hj : j < lines.length) :
    (lines.getD i dfltLine).time_s ≤ (lines.getD j dfltLine).time_s := by
  rcases Nat.lt_or_ge i j with hlt | hge
  · have hi : i < lines.length := by omega
    rw [List.getD_eq_getElem lines dfltLine hi, List.getD_eq_getElem lines dfltLine hj]
    exact @List.Sorted.rel_get_of_lt _ _ _ hs ⟨i, hi⟩ ⟨j, hj⟩ hlt
  · have : i = j := by omega
    subst this
    exact le_refl _

/-- The fuel argument of `findLoop` is irrelevant as long as it exceeds
`hi + 1 - lo` (which halves every iteration): the bounded loop computes
what the unbounded `while` loop does. -/
theorem findLoop_fuel_free (lines : List LyricLine) (p : ℚ) :
    ∀ (f1 f2 : Nat) (lo hi : Int) (result : Nat),
      (hi + 1 - lo).toNat < f1 → (hi + 1 - lo).toNat < f2 →
      findLoop lines p f1 lo hi result = findLoop lines p f2 lo hi result
  | f1 + 1, f2 + 1, lo, hi, result, hf1, hf2 => by
      simp only [findLoop]
      by_cases hcmp : lo ≤ hi
      · rw [if_pos hcmp, if_pos hcmp]
        have hfd : (lo + hi).fdiv 2 = (lo + hi) / 2 := Int.fdiv_eq_ediv _ (by omega)
        by_cases hp : (lines.getD ((lo + hi).fdiv 2).toNat dfltLine).time_s ≤ p
        · rw [if_pos hp, if_pos hp]
          exact findLoop_fuel_free lines p f1 f2 _ hi _ (by omega) (by omega)
        · rw [if_neg hp, if_neg hp]
          exact findLoop_fuel_free lines p f1 f2 lo _ result (by omega) (by omega)
      · rw [if_neg hcmp, if_neg hcmp]
  | 0, _, lo, hi, result, hf1, hf2 => by omega
  | _ + 1, 0, lo, hi, result, hf1, hf2 => by omega

/-- Invariant-based correctness of the binary-search loop.  The invariants
are exactly those maintained by the Python loop:
`result` is `0` with `lo = 0` (no successful probe yet) or `lo - 1` with a
successful probe at `result`; all indices above `hi` have timestamps
strictly beyond `p`. -/
theorem findLoop_correct (lines : List LyricLine) (p : ℚ)
    (hs : List.Sorted (fun a b : LyricLine => a.time_s ≤ b.time_s) lines) :
    ∀ (fuel : Nat) (lo hi : Int) (result : Nat),
      (hi + 1 - lo).toNat < fuel →
      0 ≤ lo → hi < (lines.length : Int) → lo ≤ hi + 1 →
      ((lo = 0 ∧ result = 0) ∨
        ((result : Int) = lo - 1 ∧ result < lines.length ∧
          (lines.getD result dfltLine).time_s ≤ p)) →
      (∀ i : Nat, hi < (i : Int) → i < lines.length →
        p < (lines.getD i dfltLine).time_s) →
      findLoop lines p fuel lo hi result = specActiveIdx lines p
  | 0, lo, hi, result, hfuel, hlo, hhi, hlohi, hres, hhigh => by omega
  | fuel + 1, lo, hi, result, hfuel, hlo, hhi, hlohi, hres, hhigh => by
      simp only [findLoop]
      by_cases hcmp : lo ≤ hi
      · rw [if_pos hcmp]
        have hfd : (lo + hi).fdiv 2 = (lo + hi) / 2 := Int.fdiv_eq_ediv _ (by omega)
        have hmlo : lo ≤ (lo + hi).fdiv 2 := by rw [hfd]; omega
        have hmhi : (lo + hi).fdiv 2 ≤ hi := by rw [hfd]; omega
        have hm0 : 0 ≤ (lo + hi).fdiv 2 := by omega
        have hmn : ((lo + hi).fdiv 2).toNat < lines.length := by omega
        by_cases hp : (lines.getD ((lo + hi).fdiv 2).toNat dfltLine).time_s ≤ p
        · rw [if_pos hp]
          exact findLoop_correct lines p hs fuel ((lo + hi).fdiv 2 + 1) hi
            ((lo + hi).fdiv 2).toNat (by omega) (by omega) hhi (by omega)
            (Or.inr ⟨by omega, hmn, hp⟩) hhigh
        · rw [if_neg hp]
          refine findLoop_correct lines p hs fuel lo ((lo + hi).fdiv 2 - 1) result
            (by omega) hlo (by omega) (by omega) hres ?_
          intro i hi1 hi2
          rcases lt_or_le hi (i : Int) with hgt | hle
          · exact hhigh i hgt hi2
          · have hmi : ((lo + hi).fdiv 2).toNat ≤ i := by omega
            have := sorted_time_mono hs hmi hi2
            have hpm : p < (lines.getD ((lo + hi).fdiv 2).toNat dfltLine).time_s :=
              lt_of_not_le hp
            exact lt_of_lt_of_le hpm this
      · rw [if_neg hcmp]
        rcases hres with ⟨hl0, hr0⟩ | ⟨hr1, hr2, hr3⟩
        · subst hl0; subst hr0
          rw [specActiveIdx_eq_specFold]
          exact (specFold_of_none lines p 0
            (fun i hi' => not_le_of_lt (hhigh i (by omega) hi'))).symm
        · rw [specActiveIdx_eq_specFold]
          refine (specFold_of_last lines p 0 hr2 hr3 ?_).symm
          intro i h1 h2
          exact not_le_of_lt (hhigh i (by omega) h2)

/-- C1: on a list sorted non-decreasing by `time_s`, `_find_active_line`
returns the largest index whose timestamp is at or before the query
position (ties at equal timestamps resolved to the largest index, since the
largest qualifying index wins), and returns `0` when no index qualifies,
including on the empty list and when the position precedes the first
timestamp.  Stated as: the result equals the spec-rendered `specActiveIdx`,
is an upper bound for every qualifying index, and is `0` when none
qualifies. -/
theorem C1_find_active_line (lines : List LyricLine) (p : ℚ)
    (hs : List.Sorted (fun a b : LyricLine => a.time_s ≤ b.time_s) lines) :
    _find_active_line lines p = specActiveIdx lines p ∧
    (∀ i, i < lines.length → (lines.getD i dfltLine).time_s ≤ p →
      i ≤ _find_active_line lines p) ∧
    ((∀ i, i < lines.length → ¬ (lines.getD i dfltLine).time_s ≤ p) →
      _find_active_line lines p = 0) := by
  have heq : _find_active_line lines p = specActiveIdx lines p := by
    refine findLoop_correct lines p hs (lines.length + 1) 0
      ((lines.length : Int) - 1) 0 (by omega) le_rfl (by omega) (by omega)
      (Or.inl ⟨rfl, rfl⟩) ?_
    intro i h1 h2
    omega
  refine ⟨heq, ?_, ?_⟩
  · intro i h1 h2
    rw [heq, specActiveIdx_eq_specFold]
    exact le_specFold lines p 0 h1 h2
  · intro hnone
    rw [heq, specActiveIdx_eq_specFold]
    exact specFold_of_none lines p 0 hnone

/-- Witness for C1 on the spec's own example `T = [0.0, 2.0, 2.0, 5.0]`,
`p = 2.0`, where the returned index is `2` (last of the tied pair). -/
theorem C1_find_active_line_witness :
    _find_active_line [⟨0, "a"⟩, ⟨2, "b"⟩, ⟨2, "c"⟩, ⟨5, "d"⟩] 2 =
      specActiveIdx [⟨0, "a"⟩, ⟨2, "b"⟩, ⟨2, "c"⟩, ⟨5, "d"⟩] 2 ∧
    specActiveIdx [⟨0, "a"⟩, ⟨2, "b"⟩, ⟨2, "c"⟩, ⟨5, "d"⟩] 2 = 2 := by
  constructor
  · exact (C1_find_active_line [⟨0, "a"⟩, ⟨2, "b"⟩, ⟨2, "c"⟩, ⟨5, "d"⟩] 2
      (by decide)).1
  · decide

/-! ## C3: fractional-field padding -/

lemma digitsToNat_append_zero (xs : List Char) :
    digitsToNat (xs ++ ['0']) = digitsToNat xs * 10 := by
  unfold digitsToNat
  rw [List.foldl_append]
  simp

lemma digitsToNat_append_zeros (ds : List Char) (k : Nat) :
    digitsToNat (ds ++ List.replicate k '0') = digitsToNat ds * 10 ^ k := by
  induction k with
  | zero => simp
  | succ m ih =>
      rw [List.replicate_succ' m '0', ← List.append_assoc, digitsToNat_append_zero, ih]
      ring

/-- C3: a fractional field of fewer than 3 digits is right-padded with
zeros to 3 digits before the millisecond conversion, so its contribution is
`int(field) * 10^(3-len) / 1000`; in particular a field `"5"` contributes
500ms (1/2 s), not 5ms, for any minutes and seconds. -/
theorem C3_frac_padding (minutes seconds : Nat) (ds : List Char)
    (h1 : 0 < ds.length) (h2 : ds.length < 3) :
    timeOf minutes seconds (some ds) =
      (minutes : ℚ) * 60 + (seconds : ℚ)
        + ((digitsToNat ds * 10 ^ (3 - ds.length) : Nat) : ℚ) / 1000 ∧
    timeOf minutes seconds (some ['5']) =
      (minutes : ℚ) * 60 + (seconds : ℚ) + 1 / 2 := by
  constructor
  · have hpad : fracPad ds = ds ++ List.replicate (3 - ds.length) '0' := by
      unfold fracPad
      refine List.take_of_length_le ?_
      rw [List.length_append, List.length_replicate]
      omega
    unfold timeOf fracOfGroup
    rw [show (some ds).getD ['0'] = ds from rfl, hpad, digitsToNat_append_zeros]
  · have h5 : digitsToNat (fracPad (['5'] : List Char)) = 500 := by decide
    unfold timeOf fracOfGroup
    rw [show (some ['5']).getD ['0'] = ['5'] from rfl, h5]
    norm_num

/-- Witness for C3 at `minutes = 1`, `seconds = 2`, field `"5"`. -/
theorem C3_frac_padding_witness :
    timeOf 1 2 (some ['5']) =
      ((1 : Nat) : ℚ) * 60 + ((2 : Nat) : ℚ)
        + ((digitsToNat ['5'] * 10 ^ (3 - (['5'] : List Char).length) : Nat) : ℚ) / 1000 :=
  (C3_frac_padding 1 2 ['5'] (by decide) (by decide)).1

/-! ## C10: bounds of the locator and `display_pipe` safety -/

/-- The binary-search loop never leaves `[0, len)` when it starts there:
every successful probe stores `mid`, which is at most `hi < len`. -/
theorem findLoop_lt (lines : List LyricLine) (p : ℚ) :
    ∀ (fuel : Nat) (lo hi : Int) (result : Nat),
      0 < lines.length → hi < (lines.length : Int) → result < lines.length →
      findLoop lines p fuel lo hi result < lines.length
  | 0, lo, hi, result, h0, hhi, hres => hres
  | fuel + 1, lo, hi, result, h0, hhi, hres => by
      simp only [findLoop]
      by_cases hcmp : lo ≤ hi
      · rw [if_pos hcmp]
        have hfd : (lo + hi).fdiv 2 = (lo + hi) / 2 := Int.fdiv_eq_ediv _ (by omega)
        have hmn : ((lo + hi).fdiv 2).toNat < lines.length := by omega
        by_cases hp : (lines.getD ((lo + hi).fdiv 2).toNat dfltLine).time_s ≤ p
        · rw [if_pos hp]
          exact findLoop_lt lines p fuel ((lo + hi).fdiv 2 + 1) hi
            ((lo + hi).fdiv 2).toNat h0 hhi hmn
        · rw [if_neg hp]
          exact findLoop_lt lines p fuel lo ((lo + hi).fdiv 2 - 1) result h0
            (by omega) hres
      · rw [if_neg hcmp]
        exact hres

/-- C10: on a non-empty line list the locator's result is a valid index
(`< len`, hence the access `lines[active_idx]` in `display_pipe` is in
bounds), and a `display_pipe` iteration on a playing, unchanged song with a
new active index prints the active line's text exactly when that text is
non-empty, while updating the previously-printed index either way. -/
theorem C10_pipe_safety (lines : List LyricLine) (hne : lines ≠ []) :
    (∀ p : ℚ, _find_active_line lines p < lines.length) ∧
    (∀ (initial_info n : NowPlaying) (prev : Int),
      n.title = initial_info.title → n.artist = initial_info.artist →
      n.is_playing = true →
      ((_find_active_line lines n.position_s : Int) ≠ prev) →
      pipeStep lines initial_info prev (some n) =
        ((_find_active_line lines n.position_s : Int),
         (if (lines.getD (_find_active_line lines n.position_s) dfltLine).text = ""
            then [] else
              [(lines.getD (_find_active_line lines n.position_s) dfltLine).text]),
         false)) := by
  have h0 : 0 < lines.length := List.length_pos.mpr hne
  constructor
  · intro p
    exact findLoop_lt lines p (lines.length + 1) 0 ((lines.length : Int) - 1) 0
      h0 (by omega) h0
  · intro initial_info n prev hti hart hpl hneq
    simp only [pipeStep]
    rw [if_neg (show ¬(n.title ≠ initial_info.title ∨
          n.artist ≠ initial_info.artist) by simp [hti, hart])]
    rw [if_neg (show ¬(n.is_playing = false) by simp [hpl])]
    rw [if_pos hneq]

/-- Witness for C10: two lines, active index `0` with empty text — nothing
is printed but the previous index advances from `-1` to `0`. -/
theorem C10_pipe_safety_witness :
    _find_active_line [⟨0, ""⟩, ⟨3, "x"⟩] 0 < 2 ∧
    pipeStep [⟨0, ""⟩, ⟨3, "x"⟩] ⟨"t", "a", "", 0, 0, true⟩ (-1)
      (some ⟨"t", "a", "", 0, 0, true⟩) = (0, [], false) := by
  have h := C10_pipe_safety [⟨0, ""⟩, ⟨3, "x"⟩] (by decide)
  refine ⟨h.1 0, ?_⟩
  have h2 := h.2 ⟨"t", "a", "", 0, 0, true⟩ ⟨"t", "a", "", 0, 0, true⟩ (-1)
    rfl rfl rfl (by with_unfolding_all decide)
  exact h2.trans (by with_unfolding_all decide)

/-! ## C2: the differential writer -/

lemma diffConcat_nil : diffConcat [] = "" := rfl

lemma diffConcat_cons (x : Nat × String) (t : List (Nat × String)) :
    diffConcat (x :: t) = (_move (x.1 + 1) 1 ++ x.2) ++ diffConcat t := by
  simp [diffConcat, String.append_assoc]

lemma wdFold_true (prev : List String) (force : Bool) :
    ∀ (l : List (Nat × String)) (acc : String),
      l.foldl (diffStep prev force) (acc, true) =
        (acc ++ diffConcat (l.filter (fun pr => diffRowChanged prev force pr.1 pr.2)),
         true) := by
  intro l
  induction l with
  | nil => intro acc; simp [diffConcat]
  | cons x t ih =>
      intro acc
      by_cases hc : diffRowChanged prev force x.1 x.2
      · have hf : (x :: t).filter (fun pr => diffRowChanged prev force pr.1 pr.2) =
            x :: t.filter (fun pr => diffRowChanged prev force pr.1 pr.2) := by
          rw [List.filter_cons, if_pos hc]
        rw [List.foldl_cons, show diffStep prev force (acc, true) x =
            (acc ++ _move (x.1 + 1) 1 ++ x.2, true) by simp [diffStep, hc], ih,
          hf, diffConcat_cons]
        simp [String.append_assoc]
      · have hf : (x :: t).filter (fun pr => diffRowChanged prev force pr.1 pr.2) =
            t.filter (fun pr => diffRowChanged prev force pr.1 pr.2) := by
          rw [List.filter_cons, if_neg (by simpa using hc)]
        rw [List.foldl_cons, show diffStep prev force (acc, true) x = (acc, true)
            by simp [diffStep, hc], ih, hf]

lemma wdFold_false (prev : List String) (force : Bool) :
    ∀ (l : List (Nat × String)) (acc : String),
      l.foldl (diffStep prev force) (acc, false) =
        (if l.filter (fun pr => diffRowChanged prev force pr.1 pr.2) = [] then
          (acc, false)
        else
          (acc ++ diffConcat
            (l.filter (fun pr => diffRowChanged prev force pr.1 pr.2)), true)) := by
  intro l
  induction l with
  | nil => intro acc; simp
  | cons x t ih =>
      intro acc
      by_cases hc : diffRowChanged prev force x.1 x.2
      · have hf : (x :: t).filter (fun pr => diffRowChanged prev force pr.1 pr.2) =
            x :: t.filter (fun pr => diffRowChanged prev force pr.1 pr.2) := by
          rw [List.filter_cons, if_pos hc]
        rw [List.foldl_cons, show diffStep prev force (acc, false) x =
            (acc ++ _move (x.1 + 1) 1 ++ x.2, true) by simp [diffStep, hc],
          wdFold_true, hf, if_neg (by simp), diffConcat_cons]
        simp [String.append_assoc]
      · have hf : (x :: t).filter (fun pr => diffRowChanged prev force pr.1 pr.2) =
            t.filter (fun pr => diffRowChanged prev force pr.1 pr.2) := by
          rw [List.filter_cons, if_neg (by simpa using hc)]
        rw [List.foldl_cons, show diffStep prev force (acc, false) x = (acc, false)
            by simp [diffStep, hc], ih, hf]

/-- C2: `_write_diff` emits, inside one synchronized-update envelope, a
cursor-position instruction followed by the row content for exactly the
rows whose index satisfies "force, or past the end of the previous frame,
or content differs" — and writes nothing at all (`none`: no write, no
flush) when no row qualifies; in particular a self-diff without force
writes nothing, and with force every row of the current frame is emitted
regardless of equality. -/
theorem C2_write_diff :
    (∀ (prev cur : List String) (force : Bool),
      _write_diff prev cur force =
        if diffEmitted prev cur force = [] then none
        else some (_SYNC_START ++ diffConcat (diffEmitted prev cur force)
          ++ _SYNC_END)) ∧
    (∀ (prev cur : List String) (force : Bool) (pr : Nat × String),
      pr ∈ diffEmitted prev cur force ↔
        pr ∈ cur.enum ∧ diffRowChanged prev force pr.1 pr.2 = true) ∧
    (∀ prev : List String, _write_diff prev prev false = none) ∧
    (∀ prev cur : List String, diffEmitted prev cur true = cur.enum) := by
  have hmain : ∀ (prev cur : List String) (force : Bool),
      _write_diff prev cur force =
        if diffEmitted prev cur force = [] then none
        else some (_SYNC_START ++ diffConcat (diffEmitted prev cur force)
          ++ _SYNC_END) := by
    intro prev cur force
    unfold _write_diff diffEmitted
    rw [wdFold_false]
    by_cases h : cur.enum.filter (fun pr => diffRowChanged prev force pr.1 pr.2) = []
    · rw [if_pos h, if_pos h]
      rfl
    · rw [if_neg h, if_neg h]
      rfl
  refine ⟨hmain, ?_, ?_, ?_⟩
  · intro prev cur force pr
    unfold diffEmitted
    rw [List.mem_filter]
  · intro prev
    have hnil : diffEmitted prev prev false = [] := by
      unfold diffEmitted
      rw [List.filter_eq_nil_iff]
      rintro ⟨i, x⟩ hmem
      have hx := List.mem_enum hmem
      simp only [diffRowChanged, Bool.false_or, Bool.or_eq_true, decide_eq_true_eq,
        not_or]
      push_neg
      refine ⟨by omega, ?_⟩
      rw [List.getD_eq_getElem prev "" hx.1]
      exact hx.2.symm
    rw [hmain, if_pos hnil]
  · intro prev cur
    unfold diffEmitted
    rw [List.filter_eq_self]
    intro pr _
    simp [diffRowChanged]

/-! ## C4: `parse_lrc` output shape, sortedness and stability -/

lemma length_filterMap_eq (f : String → Option LyricLine) (l : List String) :
    (l.filterMap f).length = (l.filter (fun a => (f a).isSome)).length := by
  induction l with
  | nil => rfl
  | cons x t ih =>
      rw [List.filterMap_cons, List.filter_cons]
      cases hx : f x with
      | none => simpa [hx] using ih
      | some y => simpa [hx] using ih

lemma timeLe_trans (a b c : LyricLine)
    (hab : decide (a.time_s ≤ b.time_s) = true)
    (hbc : decide (b.time_s ≤ c.time_s) = true) :
    decide (a.time_s ≤ c.time_s) = true := by
  simp only [decide_eq_true_eq] at *
  exact le_trans hab hbc

lemma timeLe_total (a b : LyricLine) :
    (decide (a.time_s ≤ b.time_s) || decide (b.time_s ≤ a.time_s)) = true := by
  simp only [Bool.or_eq_true, decide_eq_true_eq]
  exact le_total a.time_s b.time_s

/-- C4: `parse_lrc` never fails; it returns exactly one `LyricLine` per
input line matching the timestamp pattern (the others silently skipped,
empty input giving `[]`), each built as `time_s = minutes*60 + seconds +
fraction` with whitespace-trimmed text, and the result is sorted
non-decreasing by `time_s` with equal-timestamp lines in input order
(stability: for every timestamp value, the subsequence at that timestamp
equals the collected subsequence in input order). -/
theorem C4_parse_lrc (t : String) :
    (parse_lrc t).length =
      ((splitlines t).filter (fun l => (lineToLyric l).isSome)).length ∧
    List.Sorted (fun a b : LyricLine => a.time_s ≤ b.time_s) (parse_lrc t) ∧
    (∀ q : ℚ, (parse_lrc t).filter (fun l => decide (l.time_s = q)) =
      (collectedLines t).filter (fun l => decide (l.time_s = q))) ∧
    (∀ x ∈ parse_lrc t, ∃ raw ∈ splitlines t,
      ∃ m s g rest, matchTs raw.trim.toList = some (m, s, g, rest) ∧
        x.time_s = (m : ℚ) * 60 + (s : ℚ) + fracOfGroup g ∧
        x.text = (String.mk rest).trim) ∧
    parse_lrc "" = [] := by
  have hperm : (parse_lrc t).Perm (collectedLines t) :=
    List.mergeSort_perm (collectedLines t) _
  refine ⟨?_, ?_, ?_, ?_, ?_⟩
  · rw [hperm.length_eq]
    exact length_filterMap_eq _ _
  · have hp := @List.sorted_mergeSort LyricLine
      (fun a b : LyricLine => decide (a.time_s ≤ b.time_s))
      timeLe_trans timeLe_total (collectedLines t)
    exact hp.imp (by intro a b h; simpa using h)
  · intro q
    have hsub : ((collectedLines t).filter
        (fun l => decide (l.time_s = q))).Sublist (parse_lrc t) := by
      refine List.mergeSort_stable timeLe_trans timeLe_total ?_
        (List.filter_sublist _)
      refine List.pairwise_of_forall_mem_list ?_
      intro a ha b hb
      have ha' := (List.mem_filter.mp ha).2
      have hb' := (List.mem_filter.mp hb).2
      simp only [decide_eq_true_eq] at ha' hb' ⊢
      rw [ha', hb']
    have hself : (((collectedLines t).filter
          (fun l => decide (l.time_s = q))).filter
          (fun l => decide (l.time_s = q))) =
        (collectedLines t).filter (fun l => decide (l.time_s = q)) := by
      rw [List.filter_eq_self]
      intro a ha
      exact (List.mem_filter.mp ha).2
    have hsub2 := List.Sublist.filter (fun l => decide (l.time_s = q)) hsub
    rw [hself] at hsub2
    have hlen : ((parse_lrc t).filter (fun l => decide (l.time_s = q))).length =
        ((collectedLines t).filter (fun l => decide (l.time_s = q))).length :=
      (hperm.filter _).length_eq
    exact (hsub2.eq_of_length hlen.symm).symm
  · intro x hx
    have hx2 : x ∈ collectedLines t := hperm.mem_iff.mp hx
    obtain ⟨raw, hraw, hsome⟩ := List.mem_filterMap.mp hx2
    refine ⟨raw, hraw, ?_⟩
    unfold lineToLyric at hsome
    rcases hm : matchTs raw.trim.toList with _ | ⟨m, s, g, rest⟩
    · rw [hm] at hsome
      exact absurd hsome (by simp)
    · rw [hm] at hsome
      refine ⟨m, s, g, rest, rfl, ?_, ?_⟩
      · have hxe := (Option.some_inj.mp hsome).symm
        rw [hxe]
        rfl
      · have hxe := (Option.some_inj.mp hsome).symm
        rw [hxe]
  · simp [parse_lrc, collectedLines, splitlines, splitLinesAux]

/-- Witness for C4 on the spec's example input
`"[00:01.5] a\n[00:00:250] b"`. -/
theorem C4_parse_lrc_witness :
    (parse_lrc "[00:01.5] a\n[00:00:250] b").length =
      ((splitlines "[00:01.5] a\n[00:00:250] b").filter
        (fun l => (lineToLyric l).isSome)).length ∧
    (parse_lrc "[00:01.5] a\n[00:00:250] b").length = 2 := by
  constructor
  · exact (C4_parse_lrc "[00:01.5] a\n[00:00:250] b").1
  · rw [(C4_parse_lrc "[00:01.5] a\n[00:00:250] b").1]
    with_unfolding_all decide

/-! ## C6: song-transition detection in the render loop -/

/-- C6: a tick of the render loop triggers the song transition — reset of
the previous active index to `-1`, a forced full redraw flag, the forced
rendering of the "Fetching lyrics…" status frame against an emptied
previous frame, and a re-invocation of the lyrics fetch — if and only if a
playback state is present whose `(title, artist)` pair differs from the
stored current song identity; a tick with an absent source never fetches,
and a present source with the same `(title, artist)` never fetches no
matter how the position changed. -/
theorem C6_song_transition (st : LoopState) (w h : Nat)
    (now : Option NowPlaying) (fetch : List LyricLine) :
    ((loopTick st w h now fetch).fetched = true ↔
      ∃ n, now = some n ∧
        (n.title ≠ st.current_info.title ∨ n.artist ≠ st.current_info.artist)) ∧
    (∀ n, now = some n →
      (n.title ≠ st.current_info.title ∨ n.artist ≠ st.current_info.artist) →
      loopTick st w h now fetch =
        ⟨⟨if fetch.isEmpty then none else some fetch, n, -1,
          _build_status "Fetching lyrics…" (some n) w h, true⟩,
         (_write_diff [] (_build_status "Fetching lyrics…" (some n) w h)
           true).toList, true⟩) ∧
    (loopTick st w h none fetch).fetched = false := by
  refine ⟨?_, ?_, by simp [loopTick]⟩
  · cases now with
    | none =>
        simp [loopTick]
    | some n =>
        by_cases hc : n.title ≠ st.current_info.title ∨
            n.artist ≠ st.current_info.artist
        · simp only [loopTick, if_pos hc]
          simp only [true_iff]
          exact ⟨n, rfl, hc⟩
        · have hfalse : (loopTick st w h (some n) fetch).fetched = false := by
            simp only [loopTick, if_neg hc]
            split
            · rfl
            · split
              · rfl
              · rfl
          constructor
          · intro hf
            rw [hfalse] at hf
            exact absurd hf (by simp)
          · rintro ⟨n', hn', hdiff⟩
            rw [← Option.some_inj.mp hn'] at hdiff
            exact absurd hdiff hc
  · intro n hn hdiff
    subst hn
    simp only [loopTick, if_pos hdiff]

/-- Witness for C6: a tick whose playback state has a new title triggers
the transition; the resulting state and writes are the transition effects
at a concrete terminal size. -/
theorem C6_song_transition_witness :
    loopTick ⟨none, ⟨"t", "a", "", 0, 0, true⟩, 5, [], false⟩ 4 4
      (some ⟨"u", "a", "", 0, 0, true⟩) [⟨0, "x"⟩] =
      ⟨⟨some [⟨0, "x"⟩], ⟨"u", "a", "", 0, 0, true⟩, -1,
        _build_status "Fetching lyrics…" (some ⟨"u", "a", "", 0, 0, true⟩) 4 4,
        true⟩,
       (_write_diff []
         (_build_status "Fetching lyrics…" (some ⟨"u", "a", "", 0, 0, true⟩) 4 4)
         true).toList, true⟩ ∧
    (loopTick ⟨none, ⟨"t", "a", "", 0, 0, true⟩, 5, [], false⟩ 4 4
      (some ⟨"t", "a", "", 0, 9999, true⟩) []).fetched = false := by
  constructor
  · have h := (C6_song_transition ⟨none, ⟨"t", "a", "", 0, 0, true⟩, 5, [], false⟩
      4 4 (some ⟨"u", "a", "", 0, 0, true⟩) [⟨0, "x"⟩]).2.1
      ⟨"u", "a", "", 0, 0, true⟩ rfl (by simp)
    rw [h]
    rfl
  · have h := (C6_song_transition ⟨none, ⟨"t", "a", "", 0, 0, true⟩, 5, [], false⟩
      4 4 (some ⟨"t", "a", "", 0, 9999, true⟩) []).1
    by_contra hcon
    have : (loopTick ⟨none, ⟨"t", "a", "", 0, 0, true⟩, 5, [], false⟩ 4 4
        (some ⟨"t", "a", "", 0, 9999, true⟩) []).fetched = true := by
      cases hv : (loopTick ⟨none, ⟨"t", "a", "", 0, 0, true⟩, 5, [], false⟩ 4 4
          (some ⟨"t", "a", "", 0, 9999, true⟩) []).fetched
      · exact absurd hv hcon
      · rfl
    obtain ⟨n, hn, hdiff⟩ := h.mp this
    rw [Option.some_inj.mp hn.symm] at hdiff
    simp at hdiff

/-! ## C7: centering of the active line in the lyric window -/

lemma build_frame_length_ge (lines : List LyricLine) (active : Nat)
    (now : NowPlaying) (w h : Nat) :
    (_build_frame lines active now w h).length = 2 + (h - 3) + (h - (2 + (h - 3))) := by
  unfold _build_frame
  simp only [List.length_append, List.length_cons, List.length_map,
    List.length_range, List.length_replicate]
  omega

lemma build_frame_getD (lines : List LyricLine) (active : Nat)
    (now : NowPlaying) (w h k : Nat) (hk : k < h - 3) :
    (_build_frame lines active now w h).getD (2 + k) "" =
      frameLyricRow lines active w ((h - 3) / 2) k := by
  unfold _build_frame
  rw [show (2 : Nat) + k = k + 2 by omega]
  rw [List.getD_eq_getElem _ _ (by
    simp only [List.length_append, List.length_cons, List.length_map,
      List.length_range, List.length_replicate]
    omega)]
  rw [List.getElem_append_left (by
    simp only [List.length_cons, List.length_map, List.length_range]
    omega)]
  simp

/-- C7: for a lyric window of size `available = h - 3 ≥ 1` and a valid
active index, the active (highlighted) line sits exactly at offset
`available / 2` from the start of the lyric window (frame row
`2 + available / 2`), whatever the number of lines above or below; window
positions before index `0` or past the end of the sequence render as bare
erase-only rows, neither wrapped nor clamped. -/
theorem C7_active_line_centered (lines : List LyricLine) (active : Nat)
    (now : NowPlaying) (w h : Nat) (havail : 1 ≤ h - 3)
    (hact : active < lines.length) :
    (_build_frame lines active now w h).getD (2 + (h - 3) / 2) "" =
      _active (lines.getD active dfltLine).text w ∧
    (∀ row, row < h - 3 →
      ((active : Int) - (((h - 3) / 2 : Nat) : Int) + (row : Int) < 0 ∨
        (lines.length : Int) ≤ (active : Int) - (((h - 3) / 2 : Nat) : Int) + (row : Int)) →
      (_build_frame lines active now w h).getD (2 + row) "" = _EL) := by
  constructor
  · rw [build_frame_getD lines active now w h ((h - 3) / 2) (by omega)]
    unfold frameLyricRow
    have hli : (active : Int) - (((h - 3) / 2 : Nat) : Int) + (((h - 3) / 2 : Nat) : Int)
        = (active : Int) := by ring
    rw [hli]
    rw [if_neg (by push_neg; omega)]
    rw [show ((active : Int) - (active : Int)).natAbs = 0 by omega]
    rw [if_pos rfl]
    rw [show ((active : Int)).toNat = active by omega]
  · intro row hrow hout
    rw [build_frame_getD lines active now w h row hrow]
    unfold frameLyricRow
    rw [if_pos hout]

/-- Witness for C7: window of 5 rows (`h = 8`), active index `0` of a
two-line list: the active style sits at frame row `2 + 2 = 4`, and window
row `0` (two positions above the first line) is a bare erase row. -/
theorem C7_active_line_centered_witness :
    (_build_frame [⟨0, "a"⟩, ⟨1, "b"⟩] 0 ⟨"t", "a", "", 0, 0, true⟩ 10 8).getD
        (2 + (8 - 3) / 2) "" =
      _active (([⟨0, "a"⟩, ⟨1, "b"⟩] : List LyricLine).getD 0 dfltLine).text 10 ∧
    (_build_frame [⟨0, "a"⟩, ⟨1, "b"⟩] 0 ⟨"t", "a", "", 0, 0, true⟩ 10 8).getD
        (2 + 0) "" = _EL := by
  have h := C7_active_line_centered [⟨0, "a"⟩, ⟨1, "b"⟩] 0 ⟨"t", "a", "", 0, 0, true⟩
    10 8 (by omega) (by simp)
  exact ⟨h.1, h.2 0 (by omega) (by simp)⟩

/-! ## C8: frame row count and erase markers -/

lemma grad_ends_el (i : Nat) (hi : i < 6) (t : String) :
    ∃ s, (_GRAD.getD i id) t = s ++ _EL := by
  interval_cases i
  · exact ⟨_BOLD ++ _FG_WHITE ++ t ++ _RESET, rfl⟩
  · exact ⟨_FG_WHITE ++ t ++ _RESET, rfl⟩
  · exact ⟨_FG_CYAN ++ t ++ _RESET, rfl⟩
  · exact ⟨_FG_BLUE ++ t ++ _RESET, rfl⟩
  · exact ⟨_FG_BR_BLACK ++ t ++ _RESET, rfl⟩
  · exact ⟨_DIM ++ _FG_BR_BLACK ++ t ++ _RESET, rfl⟩

lemma styled_line_ends_el (t : String) (d : Nat) :
    ∃ s, _styled_line t d = s ++ _EL := by
  unfold _styled_line
  have hl : _GRAD.length = 6 := rfl
  exact grad_ends_el (min (d - 1) (_GRAD.length - 1)) (by omega) t

lemma frameLyricRow_ends_el (lines : List LyricLine) (active w half row : Nat) :
    ∃ s, frameLyricRow lines active w half row = s ++ _EL := by
  unfold frameLyricRow
  by_cases h1 : ((active : Int) - (half : Int) + (row : Int) < 0 ∨
      (lines.length : Int) ≤ (active : Int) - (half : Int) + (row : Int))
  · rw [if_pos h1]
    exact ⟨"", rfl⟩
  · rw [if_neg h1]
    by_cases h2 : (((active : Int) - (half : Int) + (row : Int)) -
        (active : Int)).natAbs = 0
    · rw [if_pos h2]
      exact ⟨_BOLD ++ _BG_BLUE ++ _FG_BR_WHITE ++ pyCenter
        ((lines.getD ((active : Int) - (half : Int) + (row : Int)).toNat
          dfltLine).text) w ++ _RESET, rfl⟩
    · rw [if_neg h2]
      exact styled_line_ends_el _ _

/-- C8 (amended): for `h ≥ 2` both builders return exactly `h` rows —
the two header rows, the `h - 3` lyric-window rows (an empty window when
`h ∈ {2, 3}`), padded with blank erase-only rows up to `h` — and every row
ends in the erase-to-end-of-line marker.  (Only `h = 1` fails: the
builders return their 2 header rows unconditionally and the padding loop
never truncates; see the counterexample.) -/
theorem C8_frame_row_count (lines : List LyricLine) (active : Nat)
    (now : NowPlaying) (msg : String) (nowOpt : Option NowPlaying) (w h : Nat)
    (hh : 2 ≤ h) :
    (_build_frame lines active now w h).length = h ∧
    (_build_status msg nowOpt w h).length = h ∧
    (∀ r ∈ _build_frame lines active now w h, ∃ s, r = s ++ _EL) ∧
    (∀ r ∈ _build_status msg nowOpt w h, ∃ s, r = s ++ _EL) := by
  refine ⟨?_, ?_, ?_, ?_⟩
  · rw [build_frame_length_ge]
    omega
  · unfold _build_status
    simp only [List.length_append, List.length_cons, List.length_map,
      List.length_range, List.length_replicate]
    omega
  · intro r hr
    unfold _build_frame at hr
    simp only [List.mem_append, List.mem_cons, List.mem_map, List.mem_range,
      List.mem_replicate] at hr
    rcases hr with ((h1 | h1 | ⟨row, _, h1⟩) | ⟨_, h1⟩)
    · exact h1 ▸ ⟨spaces ((max 0 (((w : Int) - (headerPlainStr now).length).fdiv 2)).toNat)
        ++ _BOLD ++ _FG_MAGENTA ++ now.title ++ _RESET
        ++ _FG_BR_BLACK ++ " — " ++ _RESET
        ++ _FG_CYAN ++ now.artist ++ _RESET
        ++ _FG_YELLOW ++ "  " ++ _format_time now.position_s ++ " / " ++ durStr now
        ++ _RESET, rfl⟩
    · exact h1 ▸ ⟨"", rfl⟩
    · exact h1 ▸ frameLyricRow_ends_el lines active w ((h - 3) / 2) row
    · exact h1 ▸ ⟨"", rfl⟩
  · intro r hr
    unfold _build_status at hr
    simp only [List.mem_append, List.mem_cons, List.mem_map, List.mem_range,
      List.mem_replicate] at hr
    rcases hr with ((h1 | h1 | ⟨i, _, h1⟩) | ⟨_, h1⟩)
    · rw [h1]
      exact ⟨_, rfl⟩
    · rw [h1]
      exact ⟨"", rfl⟩
    · by_cases hmid : i = (h - 3) / 2
      · rw [← h1, if_pos hmid]
        exact ⟨_FG_BR_BLACK ++ _center msg w ++ _RESET, rfl⟩
      · rw [← h1, if_neg hmid]
        exact ⟨"", rfl⟩
    · rw [h1]
      exact ⟨"", rfl⟩

/-- Witness for C8 at `h = 4` and at the boundary `h = 2`, `w = 10`. -/
theorem C8_frame_row_count_witness :
    (_build_frame [] 0 ⟨"t", "a", "", 0, 0, true⟩ 10 4).length = 4 ∧
    (_build_status "m" none 10 4).length = 4 ∧
    (_build_frame [] 0 ⟨"t", "a", "", 0, 0, true⟩ 10 2).length = 2 ∧
    (_build_status "m" none 10 2).length = 2 :=
  ⟨(C8_frame_row_count [] 0 ⟨"t", "a", "", 0, 0, true⟩ "m" none 10 4 (by omega)).1,
   (C8_frame_row_count [] 0 ⟨"t", "a", "", 0, 0, true⟩ "m" none 10 4 (by omega)).2.1,
   (C8_frame_row_count [] 0 ⟨"t", "a", "", 0, 0, true⟩ "m" none 10 2 (by omega)).1,
   (C8_frame_row_count [] 0 ⟨"t", "a", "", 0, 0, true⟩ "m" none 10 2 (by omega)).2.1⟩

/-- Counterexample for C8 as stated: at terminal height `rows = 1 > 0` the
lyric-frame builder returns its 2 header rows, not exactly `1` row (the
`while len(rows) < h` padding never truncates). -/
theorem C8_counterexample :
    (_build_frame [] 0 ⟨"t", "a", "", 0, 0, true⟩ 10 1).length ≠ 1 := by
  with_unfolding_all decide

/-! ## C5: terminal restoration on every exit path -/

/-- C5: whatever the poll inputs — normal exhaustion, an interrupt flag, a
playback-query failure or a lyrics-fetch failure raising out of the loop
body — the `finally` exit sequence always runs: afterwards the cursor is
shown, the screen is cleared, and when the entry `tcgetattr` succeeded the
input mode equals the mode saved on entry; hence cursor visibility and
input mode equal their values before entry (for a terminal that started
with a visible cursor). -/
theorem C5_terminal_restoration (t0 : TermState) (has_termios : Bool)
    (lines : Option (List LyricLine)) (info : NowPlaying)
    (ticks : List TickInput) :
    (display_lyrics_run t0 has_termios lines info ticks).1.cursorVisible = true ∧
    (display_lyrics_run t0 has_termios lines info ticks).1.screen = [] ∧
    (has_termios = true →
      (display_lyrics_run t0 has_termios lines info ticks).1.inputMode
        = t0.inputMode) ∧
    (t0.cursorVisible = true →
      (display_lyrics_run t0 has_termios lines info ticks).1.cursorVisible
        = t0.cursorVisible) := by
  unfold display_lyrics_run display_lyrics_trace applyActions
  cases has_termios with
  | false => simp [List.foldl_append, applyAction]
  | true => simp [List.foldl_append, applyAction]

/-- Witness for C5: a session on a real terminal (saved mode `7`) whose
run hits a fetch failure (exception) and then an interrupt: the final
cursor is visible and the input mode is restored to `7`. -/
theorem C5_terminal_restoration_witness :
    (display_lyrics_run ⟨true, 7, []⟩ true (some [⟨0, "a"⟩])
      ⟨"t", "a", "", 0, 0, true⟩
      [⟨false, false, 4, 4, some ⟨"u", "a", "", 0, 0, true⟩, [], false, true⟩,
       ⟨false, true, 4, 4, none, [], false, false⟩]).1.inputMode = 7 ∧
    (display_lyrics_run ⟨true, 7, []⟩ true (some [⟨0, "a"⟩])
      ⟨"t", "a", "", 0, 0, true⟩
      [⟨false, false, 4, 4, some ⟨"u", "a", "", 0, 0, true⟩, [], false, true⟩,
       ⟨false, true, 4, 4, none, [], false, false⟩]).1.cursorVisible = true := by
  have h := C5_terminal_restoration ⟨true, 7, []⟩ true (some [⟨0, "a"⟩])
    ⟨"t", "a", "", 0, 0, true⟩
    [⟨false, false, 4, 4, some ⟨"u", "a", "", 0, 0, true⟩, [], false, true⟩,
     ⟨false, true, 4, 4, none, [], false, false⟩]
  exact ⟨h.2.2.1 rfl, h.1⟩

/-! ## C9: visible width of frame rows -/

lemma scanList_append (a b : List Char) : ∀ (st : ScanState) (n : Nat),
    scanList st n (a ++ b) =
      scanList (scanList st n a).1 (scanList st n a).2 b := by
  induction a with
  | nil => intro st n; cases st <;> rfl
  | cons c t ih =>
      intro st n
      cases st <;> simp only [List.cons_append, scanList] <;> split <;>
        exact ih _ _

lemma scanList_noEsc (l : List Char) (hl : ∀ c ∈ l, c ≠ '\x1b') :
    ∀ n : Nat, scanList ScanState.norm n l = (ScanState.norm, n + l.length) := by
  induction l with
  | nil => intro n; rfl
  | cons c t ih =>
      intro n
      have hc : c ≠ '\x1b' := hl c (by simp)
      simp only [scanList, if_neg hc]
      rw [ih (fun x hx => hl x (by simp [hx]))]
      simp only [List.length_cons]
      rw [Nat.add_assoc, Nat.add_comm 1 t.length]

lemma visibleLen_of_scansTo {s : String} {k : Nat} (h : scansTo s k) :
    visibleLen s = k := by
  have h0 := h 0
  simp only [visibleLen, h0]
  omega

lemma scansTo_append {s t : String} {j k : Nat}
    (hs : scansTo s j) (ht : scansTo t k) : scansTo (s ++ t) (j + k) := by
  intro n
  have hdata : (s ++ t).toList = s.toList ++ t.toList := String.data_append s t
  rw [hdata, scanList_append, hs n, ht (n + j), Nat.add_assoc]

lemma scansTo_noEsc (s : String) (h : noEsc s) : scansTo s s.length :=
  fun n => scanList_noEsc s.toList h n

lemma noEsc_spaces (k : Nat) : noEsc (spaces k) := by
  intro c hc
  have := List.eq_of_mem_replicate hc
  rw [this]
  decide

lemma spaces_length (k : Nat) : (spaces k).length = k := by
  simp [spaces, String.length]

lemma scansTo_spaces (k : Nat) : scansTo (spaces k) k := by
  have := scansTo_noEsc (spaces k) (noEsc_spaces k)
  rwa [spaces_length] at this

lemma scansTo_RESET : scansTo _RESET 0 := fun _ => rfl
lemma scansTo_BOLD : scansTo _BOLD 0 := fun _ => rfl
lemma scansTo_DIM : scansTo _DIM 0 := fun _ => rfl
lemma scansTo_EL : scansTo _EL 0 := fun _ => rfl
lemma scansTo_FG_YELLOW : scansTo _FG_YELLOW 0 := fun _ => rfl
lemma scansTo_FG_BLUE : scansTo _FG_BLUE 0 := fun _ => rfl
lemma scansTo_FG_MAGENTA : scansTo _FG_MAGENTA 0 := fun _ => rfl
lemma scansTo_FG_CYAN : scansTo _FG_CYAN 0 := fun _ => rfl
lemma scansTo_FG_WHITE : scansTo _FG_WHITE 0 := fun _ => rfl
lemma scansTo_FG_BR_BLACK : scansTo _FG_BR_BLACK 0 := fun _ => rfl
lemma scansTo_FG_BR_WHITE : scansTo _FG_BR_WHITE 0 := fun _ => rfl
lemma scansTo_BG_BLUE : scansTo _BG_BLUE 0 := fun _ => rfl

lemma noEsc_append {s t : String} (hs : noEsc s) (ht : noEsc t) :
    noEsc (s ++ t) := by
  intro c hc
  rw [show (s ++ t).toList = s.toList ++ t.toList from String.data_append s t,
    List.mem_append] at hc
  rcases hc with hc | hc
  · exact hs c hc
  · exact ht c hc

lemma grad_visLen (i : Nat) (hi : i < 6) (txt : String) (h : noEsc txt) :
    visibleLen ((_GRAD.getD i id) txt) = txt.length := by
  interval_cases i
  · show visibleLen (_BOLD ++ _FG_WHITE ++ txt ++ _RESET ++ _EL) = txt.length
    rw [visibleLen_of_scansTo (scansTo_append (scansTo_append (scansTo_append
      (scansTo_append scansTo_BOLD scansTo_FG_WHITE) (scansTo_noEsc txt h))
      scansTo_RESET) scansTo_EL)]
    omega
  · show visibleLen (_FG_WHITE ++ txt ++ _RESET ++ _EL) = txt.length
    rw [visibleLen_of_scansTo (scansTo_append (scansTo_append
      (scansTo_append scansTo_FG_WHITE (scansTo_noEsc txt h))
      scansTo_RESET) scansTo_EL)]
    omega
  · show visibleLen (_FG_CYAN ++ txt ++ _RESET ++ _EL) = txt.length
    rw [visibleLen_of_scansTo (scansTo_append (scansTo_append
      (scansTo_append scansTo_FG_CYAN (scansTo_noEsc txt h))
      scansTo_RESET) scansTo_EL)]
    omega
  · show visibleLen (_FG_BLUE ++ txt ++ _RESET ++ _EL) = txt.length
    rw [visibleLen_of_scansTo (scansTo_append (scansTo_append
      (scansTo_append scansTo_FG_BLUE (scansTo_noEsc txt h))
      scansTo_RESET) scansTo_EL)]
    omega
  · show visibleLen (_FG_BR_BLACK ++ txt ++ _RESET ++ _EL) = txt.length
    rw [visibleLen_of_scansTo (scansTo_append (scansTo_append
      (scansTo_append scansTo_FG_BR_BLACK (scansTo_noEsc txt h))
      scansTo_RESET) scansTo_EL)]
    omega
  · show visibleLen (_DIM ++ _FG_BR_BLACK ++ txt ++ _RESET ++ _EL) = txt.length
    rw [visibleLen_of_scansTo (scansTo_append (scansTo_append (scansTo_append
      (scansTo_append scansTo_DIM scansTo_FG_BR_BLACK) (scansTo_noEsc txt h))
      scansTo_RESET) scansTo_EL)]
    omega

lemma styled_line_visLen (txt : String) (d : Nat) (h : noEsc txt) :
    visibleLen (_styled_line txt d) = txt.length := by
  unfold _styled_line
  have hl : _GRAD.length = 6 := rfl
  exact grad_visLen (min (d - 1) (_GRAD.length - 1)) (by omega) txt h

lemma noEsc_mk_of_sub {l m : List Char} (h : ∀ c ∈ m, c ∈ l)
    (hl : noEsc (String.mk l)) : noEsc (String.mk m) :=
  fun c hc => hl c (h c hc)

lemma center_cases (t : String) (w : Nat) (h : noEsc t) :
    (w ≤ t.length → noEsc (_center t w) ∧ (_center t w).length = w) ∧
    (t.length < w → noEsc (_center t w) ∧
      (_center t w).length = (w - t.length) / 2 + t.length) := by
  constructor
  · intro hw
    unfold _center
    rw [if_pos hw]
    constructor
    · intro c hc
      exact h c (List.mem_of_mem_take hc)
    · show (t.toList.take w).length = w
      rw [List.length_take]
      have hlt : t.toList.length = t.length := rfl
      omega
  · intro hw
    unfold _center
    rw [if_neg (by omega)]
    exact ⟨noEsc_append (noEsc_spaces _) h,
      by rw [String.length_append, spaces_length]⟩

lemma pyCenter_noEsc_length (t : String) (w : Nat) (h : noEsc t) :
    noEsc (pyCenter t w) ∧ (pyCenter t w).length = max w t.length := by
  unfold pyCenter
  by_cases hw : w ≤ t.length
  · rw [if_pos hw]
    exact ⟨h, by omega⟩
  · rw [if_neg hw]
    have hb : ((w - t.length) &&& w &&& 1) ≤ 1 := Nat.and_le_right
    refine ⟨noEsc_append (noEsc_append (noEsc_spaces _) h) (noEsc_spaces _), ?_⟩
    rw [String.length_append, String.length_append, spaces_length, spaces_length]
    omega

lemma active_visLen (t : String) (w : Nat) (h : noEsc t) :
    visibleLen (_active t w) = max w t.length := by
  unfold _active
  obtain ⟨hne, hlen⟩ := pyCenter_noEsc_length t w h
  rw [visibleLen_of_scansTo (scansTo_append (scansTo_append (scansTo_append
    (scansTo_append (scansTo_append scansTo_BOLD scansTo_BG_BLUE)
      scansTo_FG_BR_WHITE) (scansTo_noEsc _ hne)) scansTo_RESET) scansTo_EL)]
  omega

/-- C9 (amended): every frame row carries the erase marker (C8), but rows
are not uniformly `columns` wide in visible content.  Precisely: a
non-active lyric line whose text is at least `columns` long is truncated
to exactly `columns` visible columns (never wrapped); a shorter non-active
line is only left-padded by `(columns - len) // 2`, for a visible width of
`(columns - len) // 2 + len`; the active line is padded to exactly
`columns` when its text fits but is **not** truncated when longer; the
header row is left-padded to `max 0 ((columns - len) // 2) + len` visible
columns, not truncated and not right-padded; blank rows have zero visible
width. -/
theorem C9_visible_width (t : String) (w d : Nat) (now : NowPlaying)
    (ht : noEsc t) (htitle : noEsc now.title) (hartist : noEsc now.artist)
    (hpos : noEsc (_format_time now.position_s)) (hdur : noEsc (durStr now)) :
    (w ≤ t.length → visibleLen (_styled_line (_center t w) d) = w) ∧
    (t.length < w → visibleLen (_styled_line (_center t w) d)
      = (w - t.length) / 2 + t.length) ∧
    (t.length ≤ w → visibleLen (_active t w) = w) ∧
    (w < t.length → visibleLen (_active t w) = t.length) ∧
    visibleLen _EL = 0 ∧
    visibleLen (frameHeaderRow now w) =
      (max 0 (((w : Int) - (headerPlainStr now).length).fdiv 2)).toNat
        + (headerPlainStr now).length := by
  refine ⟨?_, ?_, ?_, ?_, rfl, ?_⟩
  · intro hw
    obtain ⟨hne, hlen⟩ := (center_cases t w ht).1 hw
    rw [styled_line_visLen _ d hne, hlen]
  · intro hw
    obtain ⟨hne, hlen⟩ := (center_cases t w ht).2 hw
    rw [styled_line_visLen _ d hne, hlen]
  · intro hw
    rw [active_visLen t w ht]
    omega
  · intro hw
    rw [active_visLen t w ht]
    omega
  · unfold frameHeaderRow
    rw [visibleLen_of_scansTo (scansTo_append (scansTo_append (scansTo_append
      (scansTo_append (scansTo_append (scansTo_append (scansTo_append
      (scansTo_append (scansTo_append (scansTo_append (scansTo_append
      (scansTo_append (scansTo_append (scansTo_append (scansTo_append
      (scansTo_append (scansTo_append
        (scansTo_spaces _) scansTo_BOLD) scansTo_FG_MAGENTA)
        (scansTo_noEsc _ htitle)) scansTo_RESET) scansTo_FG_BR_BLACK)
        (scansTo_noEsc " — " (by decide))) scansTo_RESET) scansTo_FG_CYAN)
        (scansTo_noEsc _ hartist)) scansTo_RESET) scansTo_FG_YELLOW)
        (scansTo_noEsc "  " (by decide))) (scansTo_noEsc _ hpos))
        (scansTo_noEsc " / " (by decide))) (scansTo_noEsc _ hdur))
        scansTo_RESET) scansTo_EL)]
    simp only [headerPlainStr, String.length_append]
    have h3 : (" — " : String).length = 3 := rfl
    have h2 : ("  " : String).length = 2 := rfl
    have hs : (" / " : String).length = 3 := rfl
    omega

/-- Witness for C9: text `"hello"` on a 3-column terminal is truncated to
3 visible columns as a non-active line; as an active line on 8 columns it
fills exactly 8. -/
theorem C9_visible_width_witness :
    visibleLen (_styled_line (_center "hello" 3) 2) = 3 ∧
    visibleLen (_active "hello" 8) = 8 := by
  have h := C9_visible_width "hello" 3 2 ⟨"t", "a", "", 0, 0, true⟩
    (by decide) (by decide) (by decide)
    (by with_unfolding_all decide) (by with_unfolding_all decide)
  have h8 := C9_visible_width "hello" 8 2 ⟨"t", "a", "", 0, 0, true⟩
    (by decide) (by decide) (by decide)
    (by with_unfolding_all decide) (by with_unfolding_all decide)
  exact ⟨h.1 (by decide), h8.2.2.1 (by decide)⟩

/-- Counterexample to C9 as stated: the blank row 1 of a 10-column status
frame has zero visible columns, not 10; an active line of 5 characters on
a 3-column terminal keeps all 5 visible characters (no truncation); a
header row longer than a 5-column terminal is not truncated either. -/
theorem C9_counterexample :
    visibleLen ((_build_status "m" none 10 5).getD 1 "") ≠ 10 ∧
    visibleLen (_active "abcde" 3) ≠ 3 ∧
    visibleLen (frameHeaderRow ⟨"longtitle", "artist", "", 0, 0, true⟩ 5) ≠ 5 := by
  with_unfolding_all decide

end PyLyrics
